import Mathlib

/-!
Verification of the ssl-certs-checker repository.

The file shallowly embeds:
* the output formatter of pkg/output (Format, FormatTo, render, formatJSON,
  formatYAML, formatTable, ensureTrailingNewline, writeOutputFile), translated
  from the source;
* the bounded-concurrency certificate retrieval engine (Dispatcher, Certificate
  Retriever, Result Aggregator, Cancellation Coordinator).  The engine's Go
  source (pkg/cert, pkg/app, main.go) is not present in the repository snapshot,
  so it is modelled from the specification as a small-step transition system.
-/

namespace SslCertsChecker

/-- UTC calendar timestamp at second precision, modelling Go's time.Time as it
appears in certificate validity windows. -/
structure Time where
  year : Nat
  month : Nat
  day : Nat
  hour : Nat
  minute : Nat
  second : Nat
deriving DecidableEq, Repr

/-- Decimal digit character of n mod 10 (used for zero-padded time fields). -/
def digitOf (n : Nat) : Char := Nat.digitChar (n % 10)

/-- Modelled from the spec: RFC3339 rendering of a UTC timestamp, the form
YYYY-MM-DDTHH:MM:SSZ produced by Go's time marshalling for the not_before and
not_after fields. -/
def rfc3339 (t : Time) : String :=
  ⟨[digitOf (t.year / 1000), digitOf (t.year / 100), digitOf (t.year / 10), digitOf t.year, '-',
    digitOf (t.month / 10), digitOf t.month, '-', digitOf (t.day / 10), digitOf t.day, 'T',
    digitOf (t.hour / 10), digitOf t.hour, ':', digitOf (t.minute / 10), digitOf t.minute, ':',
    digitOf (t.second / 10), digitOf t.second, 'Z']⟩

/-- Checks that a string has the RFC3339 UTC shape YYYY-MM-DDTHH:MM:SSZ. -/
def isRFC3339 (s : String) : Bool :=
  match s.data with
  | [y1, y2, y3, y4, '-', m1, m2, '-', d1, d2, 'T',
     h1, h2, ':', n1, n2, ':', e1, e2, 'Z'] =>
    y1.isDigit && y2.isDigit && y3.isDigit && y4.isDigit &&
    m1.isDigit && m2.isDigit && d1.isDigit && d2.isDigit &&
    h1.isDigit && h2.isDigit && n1.isDigit && n2.isDigit &&
    e1.isDigit && e2.isDigit
  | _ => false

/-- cert.CertificateInfo: result of one successful retrieval
(host string, leaf-certificate fields). -/
structure CertificateInfo where
  host : String
  commonName : String
  dnsNames : List String
  notBefore : Time
  notAfter : Time
  publicKeyAlgorithm : String
  issuer : String
deriving DecidableEq, Repr

/-- cert.ErrorInfo: per-host failure record (host string plus human-readable
error description). -/
structure ErrorInfo where
  host : String
  error : String
deriving DecidableEq, Repr

/-- cert.Result: the terminal aggregate handed to the output formatter. -/
structure Result where
  certificates : List CertificateInfo
  errors : List ErrorInfo
deriving DecidableEq, Repr

/-- Generic JSON-like tree used to model the marshalled wire shape of Result. -/
inductive Json where
  | str (s : String)
  | arr (xs : List Json)
  | obj (fields : List (String × Json))

/-- True exactly on string leaves. -/
def Json.isStr : Json → Bool
  | .str _ => true
  | _ => false

mutual

/-- Serialization of the JSON tree (models the library marshaller's output
string; indentation is irrelevant to every property proved here). -/
def Json.render : Json → String
  | .str s => "\"" ++ s ++ "\""
  | .arr xs => "[" ++ Json.renderArr xs ++ "]"
  | .obj fs => "\x7b" ++ Json.renderObj fs ++ "\x7d"

/-- Comma-separated serialization of an array body. -/
def Json.renderArr : List Json → String
  | [] => ""
  | [j] => j.render
  | j :: js => j.render ++ "," ++ Json.renderArr js

/-- Comma-separated serialization of an object body. -/
def Json.renderObj : List (String × Json) → String
  | [] => ""
  | [(k, j)] => "\"" ++ k ++ "\":" ++ j.render
  | (k, j) :: fs => "\"" ++ k ++ "\":" ++ j.render ++ "," ++ Json.renderObj fs

end

/-- Modelled from the spec: the JSON object a CertificateInfo marshals to
(struct tags of the cert package, which is absent from the snapshot):
keys host, common_name, dns_names, not_before, not_after,
public_key_algorithm, issuer, timestamps rendered as RFC3339. -/
def certToJson (c : CertificateInfo) : Json :=
  .obj [("host", .str c.host),
        ("common_name", .str c.commonName),
        ("dns_names", .arr (c.dnsNames.map Json.str)),
        ("not_before", .str (rfc3339 c.notBefore)),
        ("not_after", .str (rfc3339 c.notAfter)),
        ("public_key_algorithm", .str c.publicKeyAlgorithm),
        ("issuer", .str c.issuer)]

/-- Modelled from the spec: the JSON object an ErrorInfo marshals to:
keys host and error. -/
def errToJson (e : ErrorInfo) : Json :=
  .obj [("host", .str e.host), ("error", .str e.error)]

/-- Modelled from the spec: the JSON document a Result marshals to.  The errors
key carries the omitempty tag, so it is omitted entirely when the failure
sequence is empty. -/
def resultToJson (r : Result) : Json :=
  if r.errors.isEmpty then
    .obj [("certificates", .arr (r.certificates.map certToJson))]
  else
    .obj [("certificates", .arr (r.certificates.map certToJson)),
          ("errors", .arr (r.errors.map errToJson))]

/-- Modelled from the spec: the YAML node a CertificateInfo marshals to; the
yaml struct tags mirror the json ones. -/
def certToYaml (c : CertificateInfo) : Json :=
  .obj [("host", .str c.host),
        ("common_name", .str c.commonName),
        ("dns_names", .arr (c.dnsNames.map Json.str)),
        ("not_before", .str (rfc3339 c.notBefore)),
        ("not_after", .str (rfc3339 c.notAfter)),
        ("public_key_algorithm", .str c.publicKeyAlgorithm),
        ("issuer", .str c.issuer)]

/-- Modelled from the spec: the YAML node an ErrorInfo marshals to. -/
def errToYaml (e : ErrorInfo) : Json :=
  .obj [("host", .str e.host), ("error", .str e.error)]

/-- Modelled from the spec: the YAML document a Result marshals to; errors is
omitted when empty, exactly as in the JSON rendering. -/
def resultToYaml (r : Result) : Json :=
  if r.errors.isEmpty then
    .obj [("certificates", .arr (r.certificates.map certToYaml))]
  else
    .obj [("certificates", .arr (r.certificates.map certToYaml)),
          ("errors", .arr (r.errors.map errToYaml))]

/-- Wire shape of one certificate entry: exactly the seven documented keys, with
dns_names an array of strings and both timestamps RFC3339 strings. -/
def certWireShape : Json → Bool
  | .obj [("host", .str _), ("common_name", .str _), ("dns_names", .arr ds),
          ("not_before", .str nb), ("not_after", .str na),
          ("public_key_algorithm", .str _), ("issuer", .str _)] =>
    ds.all Json.isStr && isRFC3339 nb && isRFC3339 na
  | _ => false

/-- Wire shape of one error entry: exactly the keys host and error. -/
def errWireShape : Json → Bool
  | .obj [("host", .str _), ("error", .str _)] => true
  | _ => false

/-- Wire shape of the whole document: a certificates array of certificate
entries, plus an errors array of error entries present only when nonempty. -/
def resultWireShape : Json → Bool
  | .obj [("certificates", .arr cs)] => cs.all certWireShape
  | .obj [("certificates", .arr cs), ("errors", .arr es)] =>
    cs.all certWireShape && es.all errWireShape && !es.isEmpty
  | _ => false

/-- Whether a (top-level) object document carries the given key. -/
def Json.hasKey : Json → String → Bool
  | .obj fs, k => fs.any (fun p => p.1 == k)
  | _, _ => false

/-- ensureTrailingNewline from pkg/output: appends a newline unless the content
already ends with one. -/
def ensureTrailingNewline (content : String) : String :=
  if content.endsWith "\n" then content else content ++ "\n"

/-- formatJSON from pkg/output: marshals the result (the library marshaller is
total on these types, so no error is possible) and ensures a trailing
newline. -/
def formatJSON (result : Result) : Except String String :=
  .ok (ensureTrailingNewline (Json.render (resultToJson result)))

/-- formatYAML from pkg/output: marshals the result to YAML and ensures a
trailing newline. -/
def formatYAML (result : Result) : Except String String :=
  .ok (ensureTrailingNewline (Json.render (resultToYaml result)))

/-- Header row of the table output. -/
def tableHeader : List String :=
  ["Host", "Common Name", "DNS Names", "Not Before", "Not After",
   "PublicKeyAlgorithm", "Issuer"]

/-- One table row for a certificate; DNS names are newline-joined, empty when
the certificate presents none, as in formatTable. -/
def tableRow (c : CertificateInfo) : List String :=
  [c.host, c.commonName,
   if c.dnsNames.isEmpty then "" else String.intercalate "\n" c.dnsNames,
   rfc3339 c.notBefore, rfc3339 c.notAfter, c.publicKeyAlgorithm, c.issuer]

/-- formatTable from pkg/output: renders header plus one row per certificate
(the table library is total and the function never fails; the stderr echo of
the error records is a side print, not part of the returned output). -/
def formatTable (result : Result) : Except String String :=
  .ok (ensureTrailingNewline
    (String.intercalate "\n"
      ((tableHeader :: result.certificates.map tableRow).map
        (String.intercalate " | "))))

/-- render from pkg/output: dispatches on the format string; table is the
default for the empty string; anything else is an unsupported output format
error. -/
def render (result : Result) (format : String) : Except String String :=
  match format with
  | "json" => formatJSON result
  | "yaml" => formatYAML result
  | "table" | "" => formatTable result
  | _ => .error ("unsupported output format: " ++ format)

/-- The output action FormatTo decides on: print to stdout, or write a file. -/
inductive Rendered where
  | toStdout (content : String)
  | toFile (path : String) (content : String)
deriving DecidableEq, Repr

/-- FormatTo from pkg/output: rejects a nil result, rejects a blank (nonempty,
all-whitespace) output path, renders, then directs the output to stdout or to
the output file. -/
def FormatTo (result : Option Result) (format outputFile : String) :
    Except String Rendered :=
  match result with
  | none => .error "result cannot be nil"
  | some r =>
    if outputFile ≠ "" ∧ outputFile.trim = "" then
      .error "output file path cannot be empty"
    else
      match render r format with
      | .error e => .error e
      | .ok out =>
        if outputFile = "" then .ok (.toStdout out)
        else .ok (.toFile outputFile out)

/-- Format from pkg/output: FormatTo with stdout as the destination. -/
def Format (result : Option Result) (format : String) : Except String Rendered :=
  FormatTo result format ""

/-- The format strings render accepts. -/
def validFormat (format : String) : Bool :=
  format == "json" || format == "yaml" || format == "table" || format == ""

/-! ## File system model for writeOutputFile -/

/-- Contents and permission bits of one file. -/
structure FileData where
  content : String
  perm : Nat
deriving DecidableEq, Repr

/-- A directory as an association list from path to file data; the first
binding for a path shadows older ones. -/
abbrev FS := List (String × FileData)

/-- Look a path up in the file system. -/
def fsGet : FS → String → Option FileData
  | [], _ => none
  | (p, d) :: rest, path => if p = path then some d else fsGet rest path

/-- Create or overwrite a file. -/
def fsSet (fs : FS) (path : String) (d : FileData) : FS := (path, d) :: fs

/-- Remove every binding for a path. -/
def fsRemove (fs : FS) (path : String) : FS := fs.filter (fun p => p.1 ≠ path)

/-- defaultOutputFileMode from pkg/output (0o644). -/
def defaultOutputFileMode : Nat := 0o644

/-- Mode os.CreateTemp gives a fresh temporary file (0o600). -/
def tempFileMode : Nat := 0o600

/-- Which of the fallible file-system operations inside writeOutputFile fail in
a given run; statFails models os.Stat failing with an error other than
not-exist. -/
structure WriteFaults where
  createTempFails : Bool
  statFails : Bool
  chmodFails : Bool
  writeFails : Bool
  syncFails : Bool
  closeFails : Bool
  renameFails : Bool
deriving DecidableEq, Repr

/-- Permission bits os.Stat reports for the target before the write: those of
the pre-existing file, and defaultOutputFileMode when the target does not
exist. -/
def targetMode (fs : FS) (path : String) : Nat :=
  match fsGet fs path with
  | some info => info.perm
  | none => defaultOutputFileMode

/-- writeOutputFile from pkg/output over the file-system model: create a
temporary file in the target's directory (tmpName stands for the fresh name
os.CreateTemp picks, created with mode 0o600), stat the target, chmod the
temporary file to the target's previous permission bits (0o644 when the
target does not exist), write the data, sync, close, and rename over the
target; every early exit removes the temporary file (the removeTmp deferred
cleanup of the source). -/
def writeOutputFile (fs : FS) (path data tmpName : String) (flt : WriteFaults) :
    Except String Unit × FS :=
  if flt.createTempFails then
    (.error "failed to create temporary output file", fs)
  else if flt.statFails then
    (.error "failed to inspect output file",
     fsRemove (fsSet fs tmpName ⟨"", tempFileMode⟩) tmpName)
  else if flt.chmodFails then
    (.error "failed to set output file permissions",
     fsRemove (fsSet fs tmpName ⟨"", tempFileMode⟩) tmpName)
  else if flt.writeFails then
    (.error "failed to write output data",
     fsRemove (fsSet (fsSet fs tmpName ⟨"", tempFileMode⟩) tmpName
       ⟨"", targetMode fs path⟩) tmpName)
  else if flt.syncFails then
    (.error "failed to flush output data",
     fsRemove (fsSet (fsSet (fsSet fs tmpName ⟨"", tempFileMode⟩) tmpName
       ⟨"", targetMode fs path⟩) tmpName ⟨data, targetMode fs path⟩) tmpName)
  else if flt.closeFails then
    (.error "failed to close output file",
     fsRemove (fsSet (fsSet (fsSet fs tmpName ⟨"", tempFileMode⟩) tmpName
       ⟨"", targetMode fs path⟩) tmpName ⟨data, targetMode fs path⟩) tmpName)
  else if flt.renameFails then
    (.error "failed to replace output file",
     fsRemove (fsSet (fsSet (fsSet fs tmpName ⟨"", tempFileMode⟩) tmpName
       ⟨"", targetMode fs path⟩) tmpName ⟨data, targetMode fs path⟩) tmpName)
  else
    (.ok (),
     fsSet (fsRemove (fsSet (fsSet (fsSet fs tmpName ⟨"", tempFileMode⟩) tmpName
       ⟨"", targetMode fs path⟩) tmpName ⟨data, targetMode fs path⟩) tmpName)
       path ⟨data, targetMode fs path⟩)

/-! ## Spec-modelled certificate retrieval engine

Modelled from the spec: the Go source of the Dispatcher, Certificate
Retriever, Result Aggregator and Cancellation Coordinator (pkg/cert, pkg/app,
main.go) is not part of the snapshot; sections 3 to 5 of the specification are
embedded as a small-step transition system over the aggregator's slot array. -/

/-- Modelled from the spec: outcome of one retrieval, either the leaf
certificate's fields or a human-readable failure message. -/
inductive RetrievalOutcome where
  | ok (commonName : String) (dnsNames : List String) (notBefore notAfter : Time)
       (publicKeyAlgorithm issuer : String)
  | fail (msg : String)
deriving DecidableEq, Repr

/-- Modelled from the spec: the failure description used for
cancellation-classified failures (context cancellation). -/
def cancelMsg : String := "context canceled"

/-- The cancellation-classified retrieval outcome. -/
def cancelOutcome : RetrievalOutcome := .fail cancelMsg

/-- A failure record is cancellation-classified when it carries the
cancellation description. -/
def isCancellation (e : ErrorInfo) : Bool := e.error == cancelMsg

/-- Modelled from the spec: concurrency limit C of the bounded worker pool,
fixed at 10. -/
def concurrencyLimit : Nat := 10

/-- Modelled from the spec: one run's fixed data — the ordered input host list
(already-validated host strings) and, for each input position, the outcome its
retrieval would produce if dialed (pure per-host operation). -/
structure DispCfg where
  hosts : List String
  retrieve : Nat → RetrievalOutcome

/-- Modelled from the spec: mutable state of a run.  admitted counts how many
hosts (a prefix of the input, in input order) have been taken off the queue;
running holds the input positions currently executing in the pool; slots is
the aggregator's fixed-size write-once slot array; cancelled is the
Cancellation Coordinator's one-shot signal; dialed records the positions for
which a network dial was actually started. -/
structure DState where
  admitted : Nat
  running : List Nat
  slots : List (Option RetrievalOutcome)
  cancelled : Bool
  dialed : List Nat
deriving DecidableEq, Repr

/-- Initial state: nothing admitted, pool empty, all slots unwritten, signal
unset, nothing dialed. -/
def initState (cfg : DispCfg) : DState :=
  ⟨0, [], List.replicate cfg.hosts.length none, false, []⟩

/-- The Cancellation Coordinator's activation: sets the one-shot signal. -/
def setCancel (s : DState) : DState :=
  { s with cancelled := true }

/-- Modelled from the spec: the transitions of a run.
spawn — the dispatcher admits the next host in input order when a pool slot is
free and the signal is unset; the retriever dials it.
skipQueued — the signal is set, so a still-queued host is converted directly
into a cancellation-classified failure, tagged with its input position,
without being dialed.
finish — an in-flight retrieval completes and writes its outcome into its
slot; after the signal is set it may instead observe the signal and exit with
the cancellation failure.
fire — an external interrupt sets the cancellation signal. -/
inductive Step (cfg : DispCfg) : DState → DState → Prop where
  | spawn (s : DState)
      (hc : s.cancelled = false)
      (hn : s.admitted < cfg.hosts.length)
      (hr : s.running.length < concurrencyLimit) :
      Step cfg s ⟨s.admitted + 1, s.admitted :: s.running, s.slots,
                  s.cancelled, s.admitted :: s.dialed⟩
  | skipQueued (s : DState)
      (hc : s.cancelled = true)
      (hn : s.admitted < cfg.hosts.length) :
      Step cfg s ⟨s.admitted + 1, s.running,
                  s.slots.set s.admitted (some cancelOutcome),
                  s.cancelled, s.dialed⟩
  | finish (s : DState) (i : Nat) (o : RetrievalOutcome)
      (hi : i ∈ s.running)
      (ho : o = cfg.retrieve i ∨ (s.cancelled = true ∧ o = cancelOutcome)) :
      Step cfg s ⟨s.admitted, s.running.erase i, s.slots.set i (some o),
                  s.cancelled, s.dialed⟩
  | fire (s : DState) :
      Step cfg s (setCancel s)

/-- States reachable from the initial state of a run. -/
def Reachable (cfg : DispCfg) (s : DState) : Prop :=
  Relation.ReflTransGen (Step cfg) (initState cfg) s

/-- States reachable from a given intermediate state. -/
def ReachFrom (cfg : DispCfg) (s t : DState) : Prop :=
  Relation.ReflTransGen (Step cfg) s t

/-- The dispatcher returns exactly when every host has been taken off the queue
and the pool has drained. -/
def isFinal (cfg : DispCfg) (s : DState) : Prop :=
  s.admitted = cfg.hosts.length ∧ s.running = []

/-- Turn position-tagged slot contents into records.  Pairing the input host
list with the slot array positionally realizes the original-position tagging
of outcomes. -/
def finalizeSlots (hosts : List String) (slots : List (Option RetrievalOutcome)) :
    Result :=
  { certificates := (hosts.zip slots).filterMap (fun p =>
      match p.2 with
      | some (.ok cn dns nb na alg iss) => some ⟨p.1, cn, dns, nb, na, alg, iss⟩
      | _ => none),
    errors := (hosts.zip slots).filterMap (fun p =>
      match p.2 with
      | some (.fail msg) => some ⟨p.1, msg⟩
      | _ => none) }

/-- Modelled from the spec: finalization of the Result Aggregator — partition
the slot array into the certificate sequence and the failure sequence, each in
original input order. -/
def finalizeResult (cfg : DispCfg) (s : DState) : Result :=
  finalizeSlots cfg.hosts s.slots

/-- The Result a fully sequential, uncancelled run produces: each slot holds
its own host's retrieval outcome. -/
def pureResult (cfg : DispCfg) : Result :=
  finalizeSlots cfg.hosts
    ((List.range cfg.hosts.length).map (fun i => some (cfg.retrieve i)))

/-! ## Concrete example run (used by the witnesses) -/

/-- A successful retrieval outcome for the first example host. -/
def exCertOutcome : RetrievalOutcome :=
  .ok "a.example" ["a.example", "www.a.example"]
    ⟨2024, 1, 1, 0, 0, 0⟩ ⟨2025, 1, 1, 0, 0, 0⟩ "ECDSA" "Test CA"

/-- A connection-establishment failure message for the second example host. -/
def exFailMsg : String := "failed to connect to b.example:443: connection refused"

/-- A two-host run: the first host succeeds, the second fails to connect. -/
def cfgEx : DispCfg :=
  { hosts := ["a.example:443", "b.example:443"],
    retrieve := fun i => if i = 0 then exCertOutcome else .fail exFailMsg }

/-- Example trace, uncancelled: initial state. -/
def exS0 : DState := ⟨0, [], [none, none], false, []⟩

/-- Example trace: host 0 admitted and dialed. -/
def exS1 : DState := ⟨1, [0], [none, none], false, [0]⟩

/-- Example trace: host 1 admitted and dialed; both in flight. -/
def exS2 : DState := ⟨2, [1, 0], [none, none], false, [1, 0]⟩

/-- Example trace: host 0 completed with its certificate. -/
def exS3 : DState := ⟨2, [1], [some exCertOutcome, none], false, [1, 0]⟩

/-- Example trace: host 1 completed with its failure; final state. -/
def exS4 : DState := ⟨2, [], [some exCertOutcome, some (.fail exFailMsg)], false, [1, 0]⟩

/-- Cancelled example trace: the interrupt fires before any admission. -/
def exC1 : DState := ⟨0, [], [none, none], true, []⟩

/-- Cancelled example trace: host 0 converted to a cancellation failure. -/
def exC2 : DState := ⟨1, [], [some cancelOutcome, none], true, []⟩

/-- Cancelled example trace: both hosts converted; final state. -/
def exC3 : DState := ⟨2, [], [some cancelOutcome, some cancelOutcome], true, []⟩

/-- A pre-existing target file for the write-output example. -/
def exFS : FS := [("result.json", ⟨"old", 0o600⟩)]

/-- The fault-free write run. -/
def exNoFaults : WriteFaults := ⟨false, false, false, false, false, false, false⟩

/-- A write run whose final rename fails. -/
def exRenameFault : WriteFaults := ⟨false, false, false, false, false, false, true⟩

/-! ## Run invariants -/

/-- Inductive invariant of the transition system: slot-array length is fixed;
the admission counter never exceeds the input length; running positions are
distinct admitted positions, at most concurrencyLimit of them, all dialed;
dialed positions are admitted; a running position's slot is unwritten; slots
of not-yet-admitted positions are unwritten; slots of admitted, no longer
running positions are written; a written slot holds its own host's retrieval
outcome or the cancellation failure, and a written slot belonging to a
never-dialed host holds the cancellation failure; while the cancellation
signal is unset every written slot holds its own host's retrieval outcome. -/
structure Inv (cfg : DispCfg) (s : DState) : Prop where
  slots_len : s.slots.length = cfg.hosts.length
  admitted_le : s.admitted ≤ cfg.hosts.length
  run_lt : ∀ i ∈ s.running, i < s.admitted
  run_nodup : s.running.Nodup
  run_bound : s.running.length ≤ concurrencyLimit
  run_dialed : ∀ i ∈ s.running, i ∈ s.dialed
  dialed_lt : ∀ i ∈ s.dialed, i < s.admitted
  slot_run : ∀ i ∈ s.running, s.slots[i]? = some none
  slot_ge : ∀ i, s.admitted ≤ i → i < cfg.hosts.length → s.slots[i]? = some none
  slot_lt : ∀ i, i < s.admitted → i ∉ s.running → ∃ o, s.slots[i]? = some (some o)
  slot_src : ∀ i o, s.slots[i]? = some (some o) →
    (i ∈ s.dialed ∧ (o = cfg.retrieve i ∨ o = cancelOutcome)) ∨
    (i ∉ s.dialed ∧ o = cancelOutcome)
  no_cancel : s.cancelled = false → ∀ i o, s.slots[i]? = some (some o) →
    o = cfg.retrieve i

/-- The initial state satisfies the invariant. -/
theorem inv_init (cfg : DispCfg) : Inv cfg (initState cfg) where
  slots_len := by simp [initState]
  admitted_le := Nat.zero_le _
  run_lt := by simp [initState]
  run_nodup := by simp [initState]
  run_bound := by simp [initState]
  run_dialed := by simp [initState]
  dialed_lt := by simp [initState]
  slot_run := by simp [initState]
  slot_ge := by
    intro i _ h2
    simp [initState, List.getElem?_replicate, h2]
  slot_lt := by simp [initState]
  slot_src := by
    intro i o h
    rcases Nat.lt_or_ge i cfg.hosts.length with h1 | h1 <;>
      simp [initState, List.getElem?_replicate, h1] at h
  no_cancel := by
    intro _ i o h
    rcases Nat.lt_or_ge i cfg.hosts.length with h1 | h1 <;>
      simp [initState, List.getElem?_replicate, h1] at h

/-- Every transition preserves the invariant. -/
theorem inv_step {cfg : DispCfg} {s t : DState} (hs : Inv cfg s)
    (hstep : Step cfg s t) : Inv cfg t := by
  cases hstep with
  | spawn hc hn hr =>
    constructor <;> dsimp only
    case slots_len => exact hs.slots_len
    case admitted_le => omega
    case run_lt =>
      intro i hi
      rcases List.mem_cons.mp hi with h | h
      · omega
      · have := hs.run_lt i h; omega
    case run_nodup =>
      refine List.nodup_cons.mpr ⟨fun h => ?_, hs.run_nodup⟩
      exact absurd (hs.run_lt _ h) (lt_irrefl _)
    case run_bound => simpa using hr
    case run_dialed =>
      intro i hi
      rcases List.mem_cons.mp hi with h | h
      · simp [h]
      · exact List.mem_cons_of_mem _ (hs.run_dialed i h)
    case dialed_lt =>
      intro i hi
      rcases List.mem_cons.mp hi with h | h
      · omega
      · have := hs.dialed_lt i h; omega
    case slot_run =>
      intro i hi
      rcases List.mem_cons.mp hi with h | h
      · subst h; exact hs.slot_ge _ le_rfl hn
      · exact hs.slot_run i h
    case slot_ge =>
      intro i h1 h2
      exact hs.slot_ge i (by omega) h2
    case slot_lt =>
      intro i h1 h2
      simp only [List.mem_cons, not_or] at h2
      have hia : i < s.admitted := by
        rcases Nat.lt_succ_iff_lt_or_eq.mp h1 with h | h
        · exact h
        · exact absurd h h2.1
      exact hs.slot_lt i hia h2.2
    case slot_src =>
      intro i o h
      rcases hs.slot_src i o h with ⟨hd, ho⟩ | ⟨hnd, ho⟩
      · exact Or.inl ⟨List.mem_cons_of_mem _ hd, ho⟩
      · have hne : i ≠ s.admitted := by
          intro e
          rw [e, hs.slot_ge _ le_rfl hn] at h
          simp at h
        exact Or.inr ⟨by simp [List.mem_cons, hne, hnd], ho⟩
    case no_cancel =>
      intro hcf i o h
      exact hs.no_cancel hcf i o h
  | skipQueued hc hn =>
    constructor <;> dsimp only
    case slots_len => simp [List.length_set, hs.slots_len]
    case admitted_le => omega
    case run_lt =>
      intro i hi
      have := hs.run_lt i hi; omega
    case run_nodup => exact hs.run_nodup
    case run_bound => exact hs.run_bound
    case run_dialed => exact hs.run_dialed
    case dialed_lt =>
      intro i hi
      have := hs.dialed_lt i hi; omega
    case slot_run =>
      intro i hi
      have hlt := hs.run_lt i hi
      rw [List.getElem?_set_ne (by omega)]
      exact hs.slot_run i hi
    case slot_ge =>
      intro i h1 h2
      rw [List.getElem?_set_ne (by omega)]
      exact hs.slot_ge i (by omega) h2
    case slot_lt =>
      intro i h1 h2
      by_cases e : i = s.admitted
      · subst e
        exact ⟨cancelOutcome, List.getElem?_set_self (by rw [hs.slots_len]; exact hn)⟩
      · have hia : i < s.admitted := by omega
        rcases hs.slot_lt i hia h2 with ⟨o, ho⟩
        exact ⟨o, by rw [List.getElem?_set_ne (by omega)]; exact ho⟩
    case slot_src =>
      intro i o h
      by_cases e : s.admitted = i
      · subst e
        rw [List.getElem?_set_self (by rw [hs.slots_len]; exact hn)] at h
        have ho : o = cancelOutcome := by
          injection h with h
          injection h with h
          exact h.symm
        have hnd : s.admitted ∉ s.dialed := fun hd =>
          absurd (hs.dialed_lt _ hd) (lt_irrefl _)
        exact Or.inr ⟨hnd, ho⟩
      · rw [List.getElem?_set_ne e] at h
        exact hs.slot_src i o h
    case no_cancel =>
      intro hcf
      rw [hc] at hcf
      cases hcf
  | finish i o hi ho =>
    have hib : i < s.slots.length := (List.getElem?_eq_some.mp (hs.slot_run i hi)).1
    constructor <;> dsimp only
    case slots_len => simp [List.length_set, hs.slots_len]
    case admitted_le => exact hs.admitted_le
    case run_lt =>
      intro j hj
      exact hs.run_lt j (List.mem_of_mem_erase hj)
    case run_nodup => exact hs.run_nodup.erase i
    case run_bound => exact le_trans (List.erase_sublist i s.running).length_le hs.run_bound
    case run_dialed =>
      intro j hj
      exact hs.run_dialed j (List.mem_of_mem_erase hj)
    case dialed_lt => exact hs.dialed_lt
    case slot_run =>
      intro j hj
      have hj2 := (hs.run_nodup.mem_erase_iff).mp hj
      rw [List.getElem?_set_ne (fun e => hj2.1 e.symm)]
      exact hs.slot_run j hj2.2
    case slot_ge =>
      intro j h1 h2
      have hilt := hs.run_lt i hi
      rw [List.getElem?_set_ne (by omega)]
      exact hs.slot_ge j h1 h2
    case slot_lt =>
      intro j h1 h2
      by_cases e : i = j
      · subst e
        exact ⟨o, List.getElem?_set_self hib⟩
      · have hj : j ∉ s.running := fun hjr =>
          h2 ((hs.run_nodup.mem_erase_iff).mpr ⟨fun e2 => e e2.symm, hjr⟩)
        rcases hs.slot_lt j h1 hj with ⟨o2, ho2⟩
        exact ⟨o2, by rw [List.getElem?_set_ne e]; exact ho2⟩
    case slot_src =>
      intro j o2 h
      by_cases e : i = j
      · subst e
        rw [List.getElem?_set_self hib] at h
        have ho2 : o2 = o := by
          injection h with h
          injection h with h
          exact h.symm
        subst ho2
        rcases ho with h3 | ⟨_, h3⟩
        · exact Or.inl ⟨hs.run_dialed i hi, Or.inl h3⟩
        · exact Or.inl ⟨hs.run_dialed i hi, Or.inr h3⟩
      · rw [List.getElem?_set_ne e] at h
        exact hs.slot_src j o2 h
    case no_cancel =>
      intro hcf j o2 h
      by_cases e : i = j
      · subst e
        rw [List.getElem?_set_self hib] at h
        have ho2 : o2 = o := by
          injection h with h
          injection h with h
          exact h.symm
        subst ho2
        rcases ho with h3 | ⟨h3, _⟩
        · exact h3
        · rw [hcf] at h3; cases h3
      · rw [List.getElem?_set_ne e] at h
        exact hs.no_cancel hcf j o2 h
  | fire =>
    constructor <;> dsimp only [setCancel]
    case slots_len => exact hs.slots_len
    case admitted_le => exact hs.admitted_le
    case run_lt => exact hs.run_lt
    case run_nodup => exact hs.run_nodup
    case run_bound => exact hs.run_bound
    case run_dialed => exact hs.run_dialed
    case dialed_lt => exact hs.dialed_lt
    case slot_run => exact hs.slot_run
    case slot_ge => exact hs.slot_ge
    case slot_lt => exact hs.slot_lt
    case slot_src => exact hs.slot_src
    case no_cancel =>
      intro hcf
      cases hcf

/-- Every reachable state satisfies the invariant. -/
theorem reachable_inv {cfg : DispCfg} {s : DState} (h : Reachable cfg s) :
    Inv cfg s := by
  induction h with
  | refl => exact inv_init cfg
  | tail _ h2 ih => exact inv_step ih h2

/-- Once the cancellation signal is set, it stays set across every step. -/
theorem step_cancel_mono {cfg : DispCfg} {s t : DState} (h : Step cfg s t)
    (hc : s.cancelled = true) : t.cancelled = true := by
  cases h <;> simp_all [setCancel]

/-- No step dials a host while the cancellation signal is set: the retriever's
pre-dial check makes an already-cancelled run perform no network operation. -/
theorem step_no_dial_cancelled {cfg : DispCfg} {s t : DState} (h : Step cfg s t)
    (hc : s.cancelled = true) : t.dialed = s.dialed := by
  cases h <;> simp_all [setCancel]

/-! ## Finalization lemmas -/

/-- Finalizing past an unwritten slot skips the position. -/
theorem finalizeSlots_cons_none (h : String) (hs : List String)
    (xs : List (Option RetrievalOutcome)) :
    finalizeSlots (h :: hs) (none :: xs) = finalizeSlots hs xs := rfl

/-- Finalizing past a successful slot prepends its certificate record. -/
theorem finalizeSlots_cons_ok (h : String) (hs : List String)
    (cn : String) (dns : List String) (nb na : Time) (alg iss : String)
    (xs : List (Option RetrievalOutcome)) :
    finalizeSlots (h :: hs) (some (.ok cn dns nb na alg iss) :: xs) =
      ⟨⟨h, cn, dns, nb, na, alg, iss⟩ :: (finalizeSlots hs xs).certificates,
       (finalizeSlots hs xs).errors⟩ := rfl

/-- Finalizing past a failed slot prepends its failure record. -/
theorem finalizeSlots_cons_fail (h : String) (hs : List String) (msg : String)
    (xs : List (Option RetrievalOutcome)) :
    finalizeSlots (h :: hs) (some (.fail msg) :: xs) =
      ⟨(finalizeSlots hs xs).certificates,
       ⟨h, msg⟩ :: (finalizeSlots hs xs).errors⟩ := rfl

/-- When every slot is written, the hosts of the certificate sequence and the
failure sequence together are a permutation of the input host list. -/
theorem finalize_partition (hosts : List String)
    (slots : List (Option RetrievalOutcome))
    (hlen : slots.length = hosts.length)
    (hfull : ∀ x ∈ slots, x.isSome) :
    ((finalizeSlots hosts slots).certificates.map (fun c => c.host) ++
     (finalizeSlots hosts slots).errors.map (fun e => e.host)).Perm hosts := by
  induction hosts generalizing slots with
  | nil =>
    cases slots with
    | nil => simp [finalizeSlots]
    | cons x xs => simp at hlen
  | cons h hs ih =>
    cases slots with
    | nil => simp at hlen
    | cons x xs =>
      have hx : x.isSome := hfull x (List.mem_cons_self x xs)
      have hlen2 : xs.length = hs.length := by simpa using hlen
      have hfull2 : ∀ y ∈ xs, y.isSome := fun y hy =>
        hfull y (List.mem_cons_of_mem x hy)
      match x, hx with
      | some o, _ =>
        cases o with
        | ok cn dns nb na alg iss =>
          rw [finalizeSlots_cons_ok]
          exact List.Perm.cons h (ih xs hlen2 hfull2)
        | fail msg =>
          rw [finalizeSlots_cons_fail]
          refine List.Perm.trans ?_ (List.Perm.cons h (ih xs hlen2 hfull2))
          simp
      | none, hx => simp at hx

/-- The hosts of each finalized sequence form a subsequence of the input host
list: within each sequence the original input order is preserved, for every
slot content and hence for every interleaving of completion times. -/
theorem finalize_sublist (hosts : List String)
    (slots : List (Option RetrievalOutcome)) :
    ((finalizeSlots hosts slots).certificates.map (fun c => c.host)).Sublist hosts ∧
    ((finalizeSlots hosts slots).errors.map (fun e => e.host)).Sublist hosts := by
  induction hosts generalizing slots with
  | nil =>
    cases slots <;> simp [finalizeSlots]
  | cons h hs ih =>
    cases slots with
    | nil =>
      constructor <;> simp [finalizeSlots]
    | cons x xs =>
      match x with
      | none =>
        rw [finalizeSlots_cons_none]
        exact ⟨(ih xs).1.cons h, (ih xs).2.cons h⟩
      | some (.ok cn dns nb na alg iss) =>
        rw [finalizeSlots_cons_ok]
        exact ⟨by simpa using (ih xs).1.cons₂ h, (ih xs).2.cons h⟩
      | some (.fail msg) =>
        rw [finalizeSlots_cons_fail]
        exact ⟨(ih xs).1.cons h, by simpa using (ih xs).2.cons₂ h⟩

/-- A position whose slot holds a failure contributes exactly its host and
message to the finalized failure sequence. -/
theorem finalize_mem_errors (hosts : List String)
    (slots : List (Option RetrievalOutcome)) (i : Nat) (h : String) (msg : String)
    (hh : hosts[i]? = some h) (hsl : slots[i]? = some (some (.fail msg))) :
    (⟨h, msg⟩ : ErrorInfo) ∈ (finalizeSlots hosts slots).errors := by
  induction i generalizing hosts slots with
  | zero =>
    cases hosts with
    | nil => simp at hh
    | cons h0 hs =>
      cases slots with
      | nil => simp at hsl
      | cons x xs =>
        simp only [List.getElem?_cons_zero] at hh hsl
        injection hh with hh
        injection hsl with hsl
        subst hh
        subst hsl
        rw [finalizeSlots_cons_fail]
        exact List.mem_cons_self _ _
  | succ n ih =>
    cases hosts with
    | nil => simp at hh
    | cons h0 hs =>
      cases slots with
      | nil => simp at hsl
      | cons x xs =>
        simp only [List.getElem?_cons_succ] at hh hsl
        have hmem := ih hs xs hh hsl
        match x with
        | none => rw [finalizeSlots_cons_none]; exact hmem
        | some (.ok cn dns nb na alg iss) =>
          rw [finalizeSlots_cons_ok]; exact hmem
        | some (.fail m2) =>
          rw [finalizeSlots_cons_fail]
          exact List.mem_cons_of_mem _ hmem

/-- In a final reachable state every slot is written. -/
theorem final_slots_full {cfg : DispCfg} {s : DState} (hreach : Reachable cfg s)
    (hfin : isFinal cfg s) : ∀ x ∈ s.slots, x.isSome := by
  have inv := reachable_inv hreach
  intro x hx
  obtain ⟨n, hn⟩ := List.mem_iff_getElem?.mp hx
  have hnlen : n < s.slots.length := (List.getElem?_eq_some.mp hn).1
  have hna : n < s.admitted := by
    rw [hfin.1]
    rw [inv.slots_len] at hnlen
    exact hnlen
  have hnr : n ∉ s.running := by rw [hfin.2]; simp
  rcases inv.slot_lt n hna hnr with ⟨o, ho⟩
  rw [hn] at ho
  injection ho with ho
  rw [ho]
  rfl

/-- In a final reachable state of a run whose cancellation signal is unset,
the slot array is exactly each host's own retrieval outcome. -/
theorem final_slots_no_cancel {cfg : DispCfg} {s : DState}
    (hreach : Reachable cfg s) (hfin : isFinal cfg s) (hnc : s.cancelled = false) :
    s.slots = (List.range cfg.hosts.length).map (fun i => some (cfg.retrieve i)) := by
  have inv := reachable_inv hreach
  apply List.ext_getElem?
  intro n
  by_cases hn : n < cfg.hosts.length
  · have hna : n < s.admitted := by rw [hfin.1]; exact hn
    have hnr : n ∉ s.running := by rw [hfin.2]; simp
    rcases inv.slot_lt n hna hnr with ⟨o, ho⟩
    have hno := inv.no_cancel hnc n o ho
    rw [ho, hno, List.getElem?_map, List.getElem?_range hn]
    rfl
  · rw [List.getElem?_eq_none (by rw [inv.slots_len]; omega),
        List.getElem?_eq_none (by simp; omega)]

/-- One step preserves the queued-host state of an already-cancelled run: the
signal stays set, the host stays out of the pool and undialed, and its slot
is unwritten or holds the cancellation failure. -/
theorem cancelled_step_aux {cfg : DispCfg} {u v : DState} (h : Step cfg u v)
    (inv : Inv cfg u) (i : Nat)
    (hP : u.cancelled = true ∧ i ∉ u.running ∧ i ∉ u.dialed ∧
      (u.slots[i]? = some none ∨ u.slots[i]? = some (some cancelOutcome))) :
    v.cancelled = true ∧ i ∉ v.running ∧ i ∉ v.dialed ∧
      (v.slots[i]? = some none ∨ v.slots[i]? = some (some cancelOutcome)) := by
  obtain ⟨hc, hr, hd, hsl⟩ := hP
  cases h with
  | spawn hc2 hn2 hr2 => rw [hc] at hc2; cases hc2
  | skipQueued hc2 hn2 =>
    refine ⟨hc, hr, hd, ?_⟩
    dsimp only
    by_cases e : u.admitted = i
    · subst e
      exact Or.inr (List.getElem?_set_self (by rw [inv.slots_len]; exact hn2))
    · rw [List.getElem?_set_ne e]
      exact hsl
  | finish j o hj ho =>
    refine ⟨hc, fun hm => hr (List.mem_of_mem_erase hm), hd, ?_⟩
    dsimp only
    have e : j ≠ i := fun e => hr (e ▸ hj)
    rw [List.getElem?_set_ne e]
    exact hsl
  | fire => exact ⟨rfl, hr, hd, hsl⟩

/-- Along any run suffix starting from an already-cancelled state, a queued
host stays out of the pool and undialed, and its slot can only hold the
cancellation failure. -/
theorem cancelled_reach_aux {cfg : DispCfg} {s t : DState}
    (hreach : Reachable cfg s) (hst : ReachFrom cfg s t) (i : Nat)
    (hP : s.cancelled = true ∧ i ∉ s.running ∧ i ∉ s.dialed ∧
      (s.slots[i]? = some none ∨ s.slots[i]? = some (some cancelOutcome))) :
    t.cancelled = true ∧ i ∉ t.running ∧ i ∉ t.dialed ∧
      (t.slots[i]? = some none ∨ t.slots[i]? = some (some cancelOutcome)) := by
  induction hst with
  | refl => exact hP
  | tail h1 h2 ih =>
    exact cancelled_step_aux h2
      (reachable_inv (Relation.ReflTransGen.trans hreach h1)) i ih

/-! ## Claim theorems for the retrieval engine -/

/-- Claim C1: for every input host list of length N and every execution,
including cancelled ones, the final Result partitions the inputs exactly: the
certificate sequence plus the failure sequence carry the input hosts as an
exact permutation (each input host occurrence exactly once, none dropped,
none duplicated), and their lengths sum to N. -/
theorem result_partitions_inputs (cfg : DispCfg) (s : DState)
    (hreach : Reachable cfg s) (hfin : isFinal cfg s) :
    ((finalizeResult cfg s).certificates.map (fun c => c.host) ++
     (finalizeResult cfg s).errors.map (fun e => e.host)).Perm cfg.hosts ∧
    (finalizeResult cfg s).certificates.length +
      (finalizeResult cfg s).errors.length = cfg.hosts.length := by
  have inv := reachable_inv hreach
  have hperm := finalize_partition cfg.hosts s.slots inv.slots_len
    (final_slots_full hreach hfin)
  refine ⟨hperm, ?_⟩
  have hlen := hperm.length_eq
  simpa using hlen

/-- Claim C2: for every input host list and every interleaving of completion
times (every reachable final state), the certificate sequence and the failure
sequence each preserve original input order: the hosts of each sequence form
a subsequence of the input host list, so of any two hosts in the same
sequence the one earlier in the input appears earlier. -/
theorem result_preserves_input_order (cfg : DispCfg) (s : DState)
    (hreach : Reachable cfg s) (hfin : isFinal cfg s) :
    ((finalizeResult cfg s).certificates.map (fun c => c.host)).Sublist cfg.hosts ∧
    ((finalizeResult cfg s).errors.map (fun e => e.host)).Sublist cfg.hosts :=
  finalize_sublist cfg.hosts s.slots

/-- Claim C3: in every reachable state at most C = 10 retriever invocations
execute concurrently; hosts are admitted in input order (every host earlier
in the input than a dialed host has itself been processed — dialed or already
converted to a cancellation failure — and dialed hosts lie below the
admission counter); and when the dispatcher returns (a final state) every
host has produced exactly one outcome. -/
theorem dispatcher_bounded_concurrency (cfg : DispCfg) (s : DState)
    (hreach : Reachable cfg s) :
    concurrencyLimit = 10 ∧
    s.running.length ≤ concurrencyLimit ∧
    (∀ i ∈ s.dialed, i < s.admitted) ∧
    (∀ i j, i ∈ s.dialed → j < i →
      j ∈ s.dialed ∨ s.slots[j]? = some (some cancelOutcome)) ∧
    (isFinal cfg s → ∀ i, i < cfg.hosts.length → ∃ o, s.slots[i]? = some (some o)) := by
  have inv := reachable_inv hreach
  refine ⟨rfl, inv.run_bound, inv.dialed_lt, ?_, ?_⟩
  · intro i j hi hj
    have hia := inv.dialed_lt i hi
    have hja : j < s.admitted := by omega
    by_cases hjr : j ∈ s.running
    · exact Or.inl (inv.run_dialed j hjr)
    · rcases inv.slot_lt j hja hjr with ⟨o, ho⟩
      rcases inv.slot_src j o ho with ⟨hd, _⟩ | ⟨_, hoc⟩
      · exact Or.inl hd
      · rw [hoc] at ho
        exact Or.inr ho
  · intro hfin i hiN
    have hia : i < s.admitted := by rw [hfin.1]; exact hiN
    have hir : i ∉ s.running := by rw [hfin.2]; simp
    exact inv.slot_lt i hia hir

/-- Claim C4: no step dials any host while the cancellation signal is set (the
retriever returns immediately with a cancellation failure instead of
attempting the network operation), and every host still queued when the
signal fires is never dialed afterwards, ends with the cancellation-classified
failure in its own (original input position) slot, and surfaces in the final
failure sequence tagged with its input host string. -/
theorem cancellation_no_dial_for_queued (cfg : DispCfg) (s t : DState)
    (hreach : Reachable cfg s) (hc : s.cancelled = true)
    (hst : ReachFrom cfg s t) (i : Nat)
    (hge : s.admitted ≤ i) (hiN : i < cfg.hosts.length) :
    (∀ u v : DState, Step cfg u v → u.cancelled = true → v.dialed = u.dialed) ∧
    i ∉ t.dialed ∧
    (t.slots[i]? = some none ∨ t.slots[i]? = some (some cancelOutcome)) ∧
    (isFinal cfg t →
      t.slots[i]? = some (some cancelOutcome) ∧
      ∀ h, cfg.hosts[i]? = some h →
        (⟨h, cancelMsg⟩ : ErrorInfo) ∈ (finalizeResult cfg t).errors) := by
  have invs := reachable_inv hreach
  have hbase : s.cancelled = true ∧ i ∉ s.running ∧ i ∉ s.dialed ∧
      (s.slots[i]? = some none ∨ s.slots[i]? = some (some cancelOutcome)) := by
    refine ⟨hc, fun hr => ?_, fun hd => ?_, Or.inl (invs.slot_ge i hge hiN)⟩
    · have := invs.run_lt i hr; omega
    · have := invs.dialed_lt i hd; omega
  have haux := cancelled_reach_aux hreach hst i hbase
  have hreacht : Reachable cfg t := Relation.ReflTransGen.trans hreach hst
  have invt := reachable_inv hreacht
  refine ⟨fun u v h2 hc2 => step_no_dial_cancelled h2 hc2, haux.2.2.1, haux.2.2.2, ?_⟩
  intro hfin
  have hia : i < t.admitted := by rw [hfin.1]; exact hiN
  have hir : i ∉ t.running := by rw [hfin.2]; simp
  rcases invt.slot_lt i hia hir with ⟨o, ho⟩
  have hoc : t.slots[i]? = some (some cancelOutcome) := by
    rcases haux.2.2.2 with h3 | h3
    · rw [ho] at h3
      injection h3 with h3
      cases h3
    · exact h3
  refine ⟨hoc, fun h hh => ?_⟩
  exact finalize_mem_errors cfg.hosts t.slots i h cancelMsg hh hoc

/-- Claim C5: the Cancellation Coordinator's signal is a one-shot broadcast:
it is initially unset; activation sets it; activating an already-cancelled
state is a no-op (idempotent, not a counter); and once set it stays set
across every step, so all concurrently executing retrievals observe it. -/
theorem cancellation_signal_one_shot (cfg : DispCfg) :
    (initState cfg).cancelled = false ∧
    (∀ s : DState, (setCancel s).cancelled = true) ∧
    (∀ s : DState, s.cancelled = true → setCancel s = s) ∧
    (∀ s : DState, setCancel (setCancel s) = setCancel s) ∧
    (∀ s t : DState, Step cfg s t → s.cancelled = true → t.cancelled = true) := by
  refine ⟨rfl, fun s => rfl, ?_, fun s => rfl,
    fun s t h hc => step_cancel_mono h hc⟩
  intro s hc
  cases s
  subst hc
  rfl

/-- Claim C7: per-host failures of every category — connection establishment,
handshake/verification, and cancellation — are recovered at the per-host
boundary in every run.  In every reachable final state: each host has exactly
one outcome in its own slot, and that outcome is either its own retrieval
outcome or the cancellation failure, so no host's failure aborts the run or
alters any other host's entry; every per-host failure, whatever its message
(cancellation included), surfaces as a FailureRecord carrying that host's
string; and the overall Result still renders successfully in all three output
formats.  When additionally the cancellation signal never fired, the Result
is exactly the pointwise function of each host's own retrieval outcome and
every host whose retrieval fails surfaces with its own message. -/
theorem per_host_failures_isolated (cfg : DispCfg) (s : DState)
    (hreach : Reachable cfg s) (hfin : isFinal cfg s) :
    (∀ i, i < cfg.hosts.length → ∃ o, s.slots[i]? = some (some o) ∧
      (o = cfg.retrieve i ∨ o = cancelOutcome)) ∧
    (∀ (i : Nat) (h msg : String), cfg.hosts[i]? = some h →
      s.slots[i]? = some (some (RetrievalOutcome.fail msg)) →
      (⟨h, msg⟩ : ErrorInfo) ∈ (finalizeResult cfg s).errors) ∧
    (s.cancelled = false →
      finalizeResult cfg s = pureResult cfg ∧
      ∀ i h msg, cfg.hosts[i]? = some h → cfg.retrieve i = .fail msg →
        (⟨h, msg⟩ : ErrorInfo) ∈ (finalizeResult cfg s).errors) ∧
    (render (finalizeResult cfg s) "json").isOk = true ∧
    (render (finalizeResult cfg s) "yaml").isOk = true ∧
    (render (finalizeResult cfg s) "table").isOk = true := by
  have inv := reachable_inv hreach
  refine ⟨?_, ?_, ?_, rfl, rfl, rfl⟩
  · intro i hi
    have hia : i < s.admitted := by rw [hfin.1]; exact hi
    have hir : i ∉ s.running := by rw [hfin.2]; simp
    rcases inv.slot_lt i hia hir with ⟨o, ho⟩
    rcases inv.slot_src i o ho with ⟨_, hsrc⟩ | ⟨_, hsrc⟩
    · exact ⟨o, ho, hsrc⟩
    · exact ⟨o, ho, Or.inr hsrc⟩
  · intro i h msg hh hsl
    exact finalize_mem_errors cfg.hosts s.slots i h msg hh hsl
  · intro hnc
    have hslots := final_slots_no_cancel hreach hfin hnc
    have heq : finalizeResult cfg s = pureResult cfg := by
      unfold finalizeResult pureResult
      rw [hslots]
    refine ⟨heq, ?_⟩
    intro i h msg hh hrv
    have hib : i < cfg.hosts.length := by
      have := (List.getElem?_eq_some.mp hh).1
      simpa using this
    apply finalize_mem_errors cfg.hosts s.slots i h msg hh
    rw [hslots, List.getElem?_map, List.getElem?_range hib]
    simp [hrv]

/-! ## Formatter lemmas and claim theorems -/

/-- Every digit character produced by digitOf is a decimal digit. -/
theorem digitChar_lt_ten_isDigit : ∀ k, k < 10 → (Nat.digitChar k).isDigit = true := by
  decide

/-- digitOf always yields a decimal digit character. -/
theorem digitOf_isDigit (n : Nat) : (digitOf n).isDigit = true :=
  digitChar_lt_ten_isDigit _ (Nat.mod_lt _ (by decide))

/-- Every rendered timestamp has the RFC3339 UTC shape. -/
theorem isRFC3339_rfc3339 (t : Time) : isRFC3339 (rfc3339 t) = true := by
  simp [isRFC3339, rfc3339, digitOf_isDigit]

/-- Mapping Json.str over strings yields only string leaves. -/
theorem all_isStr_map (l : List String) : (l.map Json.str).all Json.isStr = true := by
  induction l with
  | nil => rfl
  | cons x xs ih => simp [Json.isStr, ih]

/-- Every marshalled certificate entry has the documented wire shape. -/
theorem certWireShape_certToJson (c : CertificateInfo) :
    certWireShape (certToJson c) = true := by
  simp [certWireShape, certToJson, isRFC3339_rfc3339, all_isStr_map]

/-- Every YAML-marshalled certificate entry has the documented wire shape. -/
theorem certWireShape_certToYaml (c : CertificateInfo) :
    certWireShape (certToYaml c) = true := by
  simp [certWireShape, certToYaml, isRFC3339_rfc3339, all_isStr_map]

/-- All marshalled certificate entries have the documented wire shape. -/
theorem all_certWireShape (cs : List CertificateInfo) :
    (cs.map certToJson).all certWireShape = true := by
  induction cs with
  | nil => rfl
  | cons c cs ih => simp [certWireShape_certToJson, ih]

/-- All YAML-marshalled certificate entries have the documented wire shape. -/
theorem all_certWireShapeYaml (cs : List CertificateInfo) :
    (cs.map certToYaml).all certWireShape = true := by
  induction cs with
  | nil => rfl
  | cons c cs ih => simp [certWireShape_certToYaml, ih]

/-- All marshalled error entries have the documented wire shape. -/
theorem all_errWireShape (es : List ErrorInfo) :
    (es.map errToJson).all errWireShape = true := by
  induction es with
  | nil => rfl
  | cons e es ih => simp [errWireShape, errToJson, ih]

/-- All YAML-marshalled error entries have the documented wire shape. -/
theorem all_errWireShapeYaml (es : List ErrorInfo) :
    (es.map errToYaml).all errWireShape = true := by
  induction es with
  | nil => rfl
  | cons e es ih => simp [errWireShape, errToYaml, ih]

/-- Claim C6: for every Result, the JSON and the YAML renderings have exactly
the documented wire shape (a certificates array whose entries carry the keys
host, common_name, dns_names, not_before, not_after, public_key_algorithm and
issuer with both timestamps rendered as RFC3339, plus an errors array of
host/error entries), and the errors key is present exactly when the failure
sequence is nonempty — omitted entirely when it is empty. -/
theorem result_wire_shape (r : Result) :
    resultWireShape (resultToJson r) = true ∧
    resultWireShape (resultToYaml r) = true ∧
    Json.hasKey (resultToJson r) "errors" = !r.errors.isEmpty ∧
    Json.hasKey (resultToYaml r) "errors" = !r.errors.isEmpty := by
  rcases r with ⟨cs, es⟩
  cases es with
  | nil =>
    refine ⟨?_, ?_, ?_, ?_⟩ <;>
      simp [resultToJson, resultToYaml, resultWireShape, Json.hasKey,
        all_certWireShape, all_certWireShapeYaml]
  | cons e es =>
    refine ⟨?_, ?_, ?_, ?_⟩ <;>
      simp [resultToJson, resultToYaml, resultWireShape, Json.hasKey,
        all_certWireShape, all_certWireShapeYaml,
        all_errWireShape, all_errWireShapeYaml,
        errWireShape, errToJson, errToYaml]

/-- Claim C8: for every format string and output path, Format and FormatTo on a
nil Result return exactly the error "result cannot be nil", rendering nothing
and writing nothing (no output action is produced), and never dereference the
nil pointer (the nil check precedes every use of the result). -/
theorem nil_result_rejected (format outputFile : String) :
    FormatTo none format outputFile = .error "result cannot be nil" ∧
    Format none format = .error "result cannot be nil" :=
  ⟨rfl, rfl⟩

/-- Claim C9: for every non-nil Result, rendering fails exactly when the format
string is not one of json, yaml, table or the empty string; in that case the
error is exactly "unsupported output format: " followed by the format, and no
output is produced (the error carries no rendered content); and the empty
format string renders identically to table. -/
theorem render_format_dispatch (r : Result) (format : String) :
    ((render r format).isOk = validFormat format) ∧
    (validFormat format = false →
      render r format = .error ("unsupported output format: " ++ format)) ∧
    render r "" = render r "table" := by
  refine ⟨?_, ?_, rfl⟩
  · unfold render
    split
    · rw [show validFormat "json" = true from by decide]; rfl
    · rw [show validFormat "yaml" = true from by decide]; rfl
    · rw [show validFormat "table" = true from by decide]; rfl
    · rw [show validFormat "" = true from by decide]; rfl
    · rename_i h1 h2 h3 h4
      have hv : validFormat format = false := by
        unfold validFormat
        rw [beq_eq_false_iff_ne.mpr h1, beq_eq_false_iff_ne.mpr h2,
            beq_eq_false_iff_ne.mpr h3, beq_eq_false_iff_ne.mpr h4]
        rfl
      rw [hv]
      rfl
  · intro hv
    unfold render
    split
    · exact absurd hv (by decide)
    · exact absurd hv (by decide)
    · exact absurd hv (by decide)
    · exact absurd hv (by decide)
    · rfl

/-! ## File-system lemmas and the atomic-write claim -/

/-- Looking up the path just written. -/
theorem fsGet_fsSet_self (fs : FS) (p : String) (d : FileData) :
    fsGet (fsSet fs p d) p = some d := by
  simp [fsSet, fsGet]

/-- Writing one path leaves every other path's lookup unchanged. -/
theorem fsGet_fsSet_ne (fs : FS) (p q : String) (d : FileData) (h : p ≠ q) :
    fsGet (fsSet fs p d) q = fsGet fs q := by
  simp [fsSet, fsGet, h]

/-- Looking up a removed path yields nothing. -/
theorem fsGet_fsRemove_self (fs : FS) (p : String) :
    fsGet (fsRemove fs p) p = none := by
  induction fs with
  | nil => rfl
  | cons x xs ih =>
    simp only [fsRemove, List.filter_cons] at ih ⊢
    by_cases e : x.1 = p
    · simpa [e] using ih
    · simpa [fsGet, e] using ih

/-- Removing one path leaves every other path's lookup unchanged. -/
theorem fsGet_fsRemove_ne (fs : FS) (p q : String) (h : q ≠ p) :
    fsGet (fsRemove fs p) q = fsGet fs q := by
  have h2 : p ≠ q := fun e => h e.symm
  induction fs with
  | nil => rfl
  | cons x xs ih =>
    simp only [fsRemove, List.filter_cons] at ih ⊢
    by_cases e : x.1 = p
    · have e2 : ¬ x.1 = q := by rw [e]; exact h2
      simpa [e, fsGet, e2, h, h2] using ih
    · by_cases e3 : x.1 = q
      · simp [fsGet, e, e3, h, h2]
      · simpa [fsGet, e, e3, h, h2] using ih

/-- Claim C10: writing rendered output to a file is atomic and
permission-preserving.  For every file system, target path, data, fresh
temporary name and combination of failing file operations: the temporary file
never survives the call; on any failure the target's prior content and
permissions are untouched; and on success the target holds exactly the
rendered data with the pre-existing file's permission bits (0o644 when the
target did not previously exist). -/
theorem writeOutputFile_atomic (fs : FS) (path data tmpName : String)
    (flt : WriteFaults) (hfresh : fsGet fs tmpName = none) (hne : tmpName ≠ path) :
    fsGet (writeOutputFile fs path data tmpName flt).2 tmpName = none ∧
    ((writeOutputFile fs path data tmpName flt).1.isOk = false →
      fsGet (writeOutputFile fs path data tmpName flt).2 path = fsGet fs path) ∧
    ((writeOutputFile fs path data tmpName flt).1.isOk = true →
      fsGet (writeOutputFile fs path data tmpName flt).2 path =
        some ⟨data, targetMode fs path⟩) := by
  have hpt : path ≠ tmpName := fun e => hne e.symm
  unfold writeOutputFile
  split_ifs with h1 h2 h3 h4 h5 h6 h7 <;>
    refine ⟨?_, ?_, ?_⟩ <;>
      simp [Except.isOk, Except.toBool, fsGet_fsRemove_self, fsGet_fsRemove_ne,
        fsGet_fsSet_self, fsGet_fsSet_ne, hpt, hne, hfresh]

/-! ## Concrete traces and witnesses -/

/-- The uncancelled example run reaches the state with both hosts in flight. -/
theorem reachEx2 : Reachable cfgEx exS2 := by
  have h1 : Step cfgEx exS0 exS1 := Step.spawn exS0 rfl (by decide) (by decide)
  have h2 : Step cfgEx exS1 exS2 := Step.spawn exS1 rfl (by decide) (by decide)
  exact (Relation.ReflTransGen.refl.tail h1).tail h2

/-- The uncancelled example run reaches its final state. -/
theorem reachEx4 : Reachable cfgEx exS4 := by
  have h3 : Step cfgEx exS2 exS3 :=
    Step.finish exS2 0 exCertOutcome (by decide) (Or.inl rfl)
  have h4 : Step cfgEx exS3 exS4 :=
    Step.finish exS3 1 (.fail exFailMsg) (by decide) (Or.inl rfl)
  exact (Relation.ReflTransGen.tail reachEx2 h3).tail h4

/-- The uncancelled example run ends in a final state. -/
theorem finEx4 : isFinal cfgEx exS4 := ⟨rfl, rfl⟩

/-- The cancelled example run reaches the just-cancelled state. -/
theorem reachExC1 : Reachable cfgEx exC1 :=
  Relation.ReflTransGen.tail Relation.ReflTransGen.refl (Step.fire exS0)

/-- From the just-cancelled state both queued hosts are converted. -/
theorem reachC1toC3 : ReachFrom cfgEx exC1 exC3 := by
  have h1 : Step cfgEx exC1 exC2 := Step.skipQueued exC1 rfl (by decide)
  have h2 : Step cfgEx exC2 exC3 := Step.skipQueued exC2 rfl (by decide)
  exact (Relation.ReflTransGen.refl.tail h1).tail h2

/-- Witness for the partition claim on the concrete two-host run. -/
theorem result_partitions_inputs_witness :
    isFinal cfgEx exS4 ∧
    ((finalizeResult cfgEx exS4).certificates.map (fun c => c.host) ++
     (finalizeResult cfgEx exS4).errors.map (fun e => e.host)).Perm cfgEx.hosts ∧
    (finalizeResult cfgEx exS4).certificates.length +
      (finalizeResult cfgEx exS4).errors.length = cfgEx.hosts.length :=
  ⟨finEx4, (result_partitions_inputs cfgEx exS4 reachEx4 finEx4).1,
   (result_partitions_inputs cfgEx exS4 reachEx4 finEx4).2⟩

/-- Witness for the order-preservation claim on the concrete two-host run. -/
theorem result_preserves_input_order_witness :
    isFinal cfgEx exS4 ∧
    ((finalizeResult cfgEx exS4).certificates.map (fun c => c.host)).Sublist
      cfgEx.hosts ∧
    ((finalizeResult cfgEx exS4).errors.map (fun e => e.host)).Sublist cfgEx.hosts :=
  ⟨finEx4, (result_preserves_input_order cfgEx exS4 reachEx4 finEx4).1,
   (result_preserves_input_order cfgEx exS4 reachEx4 finEx4).2⟩

/-- Witness for the concurrency-bound claim on the concrete run. -/
theorem dispatcher_bounded_concurrency_witness :
    exS2.running.length ≤ concurrencyLimit ∧
    (0 : Nat) < exS4.admitted ∧
    (∃ o, exS4.slots[1]? = some (some o)) :=
  ⟨(dispatcher_bounded_concurrency cfgEx exS2 reachEx2).2.1,
   (dispatcher_bounded_concurrency cfgEx exS4 reachEx4).2.2.1 0 (by decide),
   (dispatcher_bounded_concurrency cfgEx exS4 reachEx4).2.2.2.2 finEx4 1 (by decide)⟩

/-- Witness for the cancellation claim on the concrete cancelled run. -/
theorem cancellation_no_dial_for_queued_witness :
    exC1.cancelled = true ∧
    (1 : Nat) ∉ exC3.dialed ∧
    exC3.slots[1]? = some (some cancelOutcome) :=
  ⟨rfl,
   (cancellation_no_dial_for_queued cfgEx exC1 exC3 reachExC1 rfl reachC1toC3 1
     (by decide) (by decide)).2.1,
   ((cancellation_no_dial_for_queued cfgEx exC1 exC3 reachExC1 rfl reachC1toC3 1
     (by decide) (by decide)).2.2.2 ⟨rfl, rfl⟩).1⟩

/-- Witness for the one-shot cancellation-signal claim. -/
theorem cancellation_signal_one_shot_witness :
    (initState cfgEx).cancelled = false ∧
    setCancel exC1 = exC1 ∧
    (setCancel exS0).cancelled = true :=
  ⟨(cancellation_signal_one_shot cfgEx).1,
   (cancellation_signal_one_shot cfgEx).2.2.1 exC1 rfl,
   (cancellation_signal_one_shot cfgEx).2.1 exS0⟩

/-- The cancelled example run reaches its final state. -/
theorem reachExC3 : Reachable cfgEx exC3 :=
  Relation.ReflTransGen.trans reachExC1 reachC1toC3

/-- The cancelled example run ends in a final state. -/
theorem finExC3 : isFinal cfgEx exC3 := ⟨rfl, rfl⟩

/-- Witness for the failure-isolation claim, on both the uncancelled concrete
run (connection-failure category) and the cancelled concrete run
(cancellation category). -/
theorem per_host_failures_isolated_witness :
    isFinal cfgEx exC3 ∧
    (⟨"a.example:443", cancelMsg⟩ : ErrorInfo) ∈ (finalizeResult cfgEx exC3).errors ∧
    (render (finalizeResult cfgEx exC3) "json").isOk = true ∧
    exS4.cancelled = false ∧
    finalizeResult cfgEx exS4 = pureResult cfgEx ∧
    (⟨"b.example:443", exFailMsg⟩ : ErrorInfo) ∈ (finalizeResult cfgEx exS4).errors :=
  ⟨finExC3,
   (per_host_failures_isolated cfgEx exC3 reachExC3 finExC3).2.1 0 "a.example:443"
     cancelMsg rfl rfl,
   (per_host_failures_isolated cfgEx exC3 reachExC3 finExC3).2.2.2.1,
   rfl,
   ((per_host_failures_isolated cfgEx exS4 reachEx4 finEx4).2.2.1 rfl).1,
   ((per_host_failures_isolated cfgEx exS4 reachEx4 finEx4).2.2.1 rfl).2 1
     "b.example:443" exFailMsg rfl rfl⟩

/-- Witness for the unsupported-format claim at the format xml. -/
theorem render_format_dispatch_witness :
    validFormat "xml" = false ∧
    render ⟨[], []⟩ "xml" = .error ("unsupported output format: " ++ "xml") :=
  ⟨by decide, (render_format_dispatch ⟨[], []⟩ "xml").2.1 (by decide)⟩

/-- Witness for the atomic-write claim: a fault-free write replaces the target
content while keeping its 0o600 permission bits, and a write whose rename
fails leaves the prior content visible. -/
theorem writeOutputFile_atomic_witness :
    fsGet exFS ".ssl-tmp" = none ∧
    ".ssl-tmp" ≠ "result.json" ∧
    fsGet (writeOutputFile exFS "result.json" "new" ".ssl-tmp" exNoFaults).2
      "result.json" = some ⟨"new", 0o600⟩ ∧
    fsGet (writeOutputFile exFS "result.json" "new" ".ssl-tmp" exRenameFault).2
      "result.json" = fsGet exFS "result.json" :=
  ⟨by decide, by decide,
   (writeOutputFile_atomic exFS "result.json" "new" ".ssl-tmp" exNoFaults
     (by decide) (by decide)).2.2 (by decide),
   (writeOutputFile_atomic exFS "result.json" "new" ".ssl-tmp" exRenameFault
     (by decide) (by decide)).2.1 (by decide)⟩

end SslCertsChecker
